import Mathlib

/-!
Verification of `simulate_movie_theater.py` (Retkoj/simpy_simulations).

The Python program is a discrete-event simulation of a movie theater built on
the `simpy` library: customers arrive at a sampled interval, pass through a
cashier stage, an usher stage and an optional food-server stage (each stage a
bounded-capacity FIFO resource), and record `env.now - arrival_time` into a
global wait-time list; a driver enumerates staffing triples and averages each
run's wait times.

The `simpy` library itself (its `Environment` scheduler and `Resource` pools)
and Python's `random` / `statistics` modules are external dependencies whose
sources are not part of the repository; their behavior, where a claim depends
on it, is modelled from the specification (each such definition is marked
`Modelled from the spec:` in its doc comment).  Everything else is translated
directly from `src/simulate_movie_theater.py`.
-/

set_option maxRecDepth 1024

namespace MovieTheaterSim

/-- Modelled from the spec: a bounded-capacity, FIFO-queued resource pool
(`simpy.Resource`; spec §3, §4.2): a capacity fixed at construction, a count
of units currently held, and a FIFO wait-list of blocked requesters
(identified here by customer id). -/
structure ResourcePool where
  capacity : Nat
  held : Nat
  waitList : List Nat
deriving DecidableEq, Repr

/-- Modelled from the spec: `acquire()` — if a unit is free the requester is
granted immediately (`held` is incremented); otherwise the requester is
appended at the tail of the FIFO wait-list and blocks.  Returns the updated
pool and whether the request was granted immediately. -/
def ResourcePool.request (p : ResourcePool) (cid : Nat) : ResourcePool × Bool :=
  if p.held < p.capacity then ({ p with held := p.held + 1 }, true)
  else ({ p with waitList := p.waitList ++ [cid] }, false)

/-- Modelled from the spec: `release()` — decrements `held` and, if the
wait-list is non-empty, grants the freed unit to the head of the wait-list
(so `held` is unchanged on net: the unit transfers).  Returns the updated pool
and the id of the requester granted the freed unit, if any. -/
def ResourcePool.release (p : ResourcePool) : ResourcePool × Option Nat :=
  match p.waitList with
  | [] => ({ p with held := p.held - 1 }, none)
  | c :: rest => ({ p with waitList := rest }, some c)

/-- A fresh pool of the given capacity: no unit held, empty wait-list. -/
def initPool (cap : Nat) : ResourcePool :=
  { capacity := cap, held := 0, waitList := [] }

/-- An abstract acquire/release history on one pool. -/
inductive PoolOp where
  | request (cid : Nat)
  | release
deriving DecidableEq, Repr

/-- Apply one operation to a pool (discarding the grant information). -/
def applyPoolOp (p : ResourcePool) : PoolOp → ResourcePool
  | .request cid => (p.request cid).1
  | .release => p.release.1

/-- Apply a sequence of acquire/release operations, oldest first. -/
def applyPoolOps (p : ResourcePool) (ops : List PoolOp) : ResourcePool :=
  ops.foldl applyPoolOp p

/-- The ids granted a unit by `n` successive `release` calls, in grant order. -/
def grantsAfterReleases (p : ResourcePool) : Nat → List Nat
  | 0 => []
  | n + 1 =>
    match p.release with
    | (p', none) => grantsAfterReleases p' n
    | (p', some c) => c :: grantsAfterReleases p' n

/-- Modelled from the spec (§4.2): for a capacity-1 pool whose currently held
unit is released at time `freeAt`, a requester arriving at time `arrival`
starts its service at `arrival` if the pool is already free, else exactly when
the unit is released (FIFO grant with zero additional delay); the stage ends
after its service duration `d`.  Returns (service start, service end). -/
def ticketStage (freeAt arrival d : ℚ) : ℚ × ℚ :=
  let start := if arrival < freeAt then freeAt else arrival
  (start, start + d)

theorem request_held_le (p : ResourcePool) (cid : Nat) (h : p.held ≤ p.capacity) :
    (p.request cid).1.held ≤ (p.request cid).1.capacity := by
  unfold ResourcePool.request
  split <;> simp <;> omega

theorem release_held_le (p : ResourcePool) (h : p.held ≤ p.capacity) :
    p.release.1.held ≤ p.release.1.capacity := by
  unfold ResourcePool.release
  split <;> simp <;> omega

theorem request_capacity_eq (p : ResourcePool) (cid : Nat) :
    (p.request cid).1.capacity = p.capacity := by
  unfold ResourcePool.request
  split <;> rfl

theorem release_capacity_eq (p : ResourcePool) :
    p.release.1.capacity = p.capacity := by
  unfold ResourcePool.release
  split <;> rfl

theorem applyPoolOps_invariant (p : ResourcePool) (ops : List PoolOp)
    (h : p.held ≤ p.capacity) :
    (applyPoolOps p ops).held ≤ (applyPoolOps p ops).capacity ∧
      (applyPoolOps p ops).capacity = p.capacity := by
  induction ops generalizing p with
  | nil => exact ⟨h, rfl⟩
  | cons op rest ih =>
    cases op with
    | request cid =>
      have h1 := request_held_le p cid h
      have h2 := request_capacity_eq p cid
      have := ih (p.request cid).1 (by omega)
      simpa [applyPoolOps, applyPoolOp, this.2, h2] using this
    | release =>
      have h1 := release_held_le p h
      have h2 := release_capacity_eq p
      have := ih p.release.1 (by omega)
      simpa [applyPoolOps, applyPoolOp, this.2, h2] using this

theorem grantsAfterReleases_eq_take (p : ResourcePool) (n : Nat) :
    grantsAfterReleases p n = p.waitList.take n := by
  induction n generalizing p with
  | zero => rfl
  | succ n ih =>
    unfold grantsAfterReleases
    unfold ResourcePool.release
    cases hw : p.waitList with
    | nil => simp [hw, ih]
    | cons c rest => simp [hw, ih]

/-- Modelled from the spec: the core consumes only a source of randomness
seeded deterministically by `seed` (spec §6).  Python's `random` module is an
external library; its global Mersenne-Twister state is modelled by a simple
deterministic congruential state. -/
structure RNG where
  state : Nat
deriving DecidableEq, Repr

/-- Modelled from the spec: one raw draw from the deterministic random source,
returning the raw value and the advanced state. -/
def RNG.next (r : RNG) : Nat × RNG :=
  let s := (r.state * 1103515245 + 12345) % 2147483648
  (s, ⟨s⟩)

/-- Modelled from the spec: `random.seed(seed)` initialises the deterministic
random source from the integer seed. -/
def randomSeed (seed : Nat) : RNG :=
  ⟨seed % 2147483648⟩

/-- Modelled from the spec: `random.randint(a, b)` — a uniform integer draw in
`[a, b]` from the deterministic source. -/
def randint (a b : Nat) (r : RNG) : Nat × RNG :=
  let (n, r') := r.next
  (a + n % (b + 1 - a), r')

/-- Modelled from the spec: `random.choice([True, False])` — a fair coin flip
from the deterministic source. -/
def randomChoiceBool (r : RNG) : Bool × RNG :=
  let (n, r') := r.next
  (n % 2 == 0, r')

/-- Modelled from the spec: `random.normalvariate(mu, sigma)` — a draw from a
distribution centred at `mu` with spread scaled by `sigma`; the stand-in noise
takes values `(k - 6)/2` for `k < 13`, so draws range over `mu ± 3·sigma` and
can be negative whenever `3·sigma > mu`. -/
def normalvariate (mu sigma : ℚ) (r : RNG) : ℚ × RNG :=
  let (n, r') := r.next
  (mu + sigma * (((n % 13 : Nat) : ℚ) - 6) / 2, r')

/-- Translated from the source rejection loop
`n = normalvariate(mu, sigma); while n < 0: n = normalvariate(mu, sigma)`
(`MovieTheater.check_ticket`, `run_movie_theater`): draw, and re-draw while
the value is negative.  The unbounded `while` is given explicit fuel; `none`
models non-termination within the allotted fuel. -/
def rejectNormalvariate (mu sigma : ℚ) : Nat → RNG → Option (ℚ × RNG)
  | 0, _ => none
  | fuel + 1, r =>
    let d := normalvariate mu sigma r
    if d.1 < 0 then rejectNormalvariate mu sigma fuel d.2 else some d

/-- Translated from `MovieTheater.sell_ticket`: `random.randint(1, 3)` minutes. -/
def sell_ticket_duration (r : RNG) : ℚ × RNG :=
  let (n, r') := randint 1 3 r
  ((n : ℚ), r')

/-- Translated from `MovieTheater.check_ticket`: rejection-sampled
`normalvariate(3/60, 1/60)` minutes. -/
def check_ticket_duration (fuel : Nat) (r : RNG) : Option (ℚ × RNG) :=
  rejectNormalvariate (3 / 60) (1 / 60) fuel r

/-- Translated from `MovieTheater.sell_food`: `random.randint(1, 5)` minutes. -/
def sell_food_duration (r : RNG) : ℚ × RNG :=
  let (n, r') := randint 1 5 r
  ((n : ℚ), r')

/-- Translated from `run_movie_theater`: the rejection-sampled
`normalvariate(12/60, 5/60)` arrival interval, drawn once per run. -/
def arrival_interval_sample (fuel : Nat) (r : RNG) : Option (ℚ × RNG) :=
  rejectNormalvariate (12 / 60) (5 / 60) fuel r

/-- The three resource pools of the theater. -/
inductive PoolId where
  | cashier
  | usher
  | server
deriving DecidableEq, Repr

/-- A pending scheduler event: either the arrival process's timeout firing
(spawning the next customer), the deferred grant of a freed pool unit to a
queued customer, or the completion of a customer's service at a pool. -/
inductive EvKind where
  | arrive
  | granted (pid : PoolId) (cid : Nat)
  | svcDone (pid : PoolId) (cid : Nat)
deriving DecidableEq, Repr

/-- Modelled from the spec: an event is a (wake-time, insertion-sequence,
payload) entry of the scheduler's priority queue, ordered by wake-time with
FIFO tie-break by insertion order (spec §3 `Event`). -/
structure Ev where
  time : ℚ
  seq : Nat
  kind : EvKind
deriving DecidableEq, Repr

/-- Insert an event into the time-ordered queue, after all events of equal or
smaller time (FIFO tie-break: later insertion runs later at equal times). -/
def insertEv (e : Ev) : List Ev → List Ev
  | [] => [e]
  | x :: xs => if x.time ≤ e.time then x :: insertEv e xs else e :: x :: xs

/-- The full state of one simulation run: the `simpy.Environment` clock and
event queue (modelled from the spec), the three resource pools of
`MovieTheater`, the arrival process's state (`get_moviegoer` counter, recorded
arrival times, the once-sampled arrival interval), the random source, and the
`wait_times` log.  `failed` records exhaustion of rejection-sampling fuel. -/
structure SimState where
  now : ℚ
  nextSeq : Nat
  queue : List Ev
  cashier : ResourcePool
  usher : ResourcePool
  server : ResourcePool
  nextId : Nat
  arrivals : List (Nat × ℚ)
  interval : ℚ
  rng : RNG
  waitTimes : List ℚ
  failed : Bool
deriving DecidableEq, Repr

/-- Read one of the three pools. -/
def SimState.getPool (s : SimState) : PoolId → ResourcePool
  | .cashier => s.cashier
  | .usher => s.usher
  | .server => s.server

/-- Replace one of the three pools. -/
def SimState.setPool (s : SimState) : PoolId → ResourcePool → SimState
  | .cashier, p => { s with cashier := p }
  | .usher, p => { s with usher := p }
  | .server, p => { s with server := p }

/-- Schedule a new event at time `t`, tagged with the next insertion sequence
number. -/
def schedule (s : SimState) (t : ℚ) (k : EvKind) : SimState :=
  { s with queue := insertEv ⟨t, s.nextSeq, k⟩ s.queue, nextSeq := s.nextSeq + 1 }

/-- Record an advanced random-source state (Python's `random` draws mutate the
module-global generator). -/
def setRng (s : SimState) (r : RNG) : SimState :=
  { s with rng := r }

/-- A customer granted a pool unit samples that pool's service duration and
schedules its completion (`yield env.process(theater.sell_ticket/...)` in
`go_to_movies`).  Fuel exhaustion of the ticket-check rejection loop sets
`failed`. -/
def startService (s : SimState) (pid : PoolId) (cid : Nat) (fuel : Nat) : SimState :=
  match pid with
  | .cashier =>
    let (d, r') := sell_ticket_duration s.rng
    schedule (setRng s r') (s.now + d) (.svcDone .cashier cid)
  | .usher =>
    match check_ticket_duration fuel s.rng with
    | none => { s with failed := true }
    | some (d, r') => schedule (setRng s r') (s.now + d) (.svcDone .usher cid)
  | .server =>
    let (d, r') := sell_food_duration s.rng
    schedule (setRng s r') (s.now + d) (.svcDone .server cid)

/-- A customer requests a pool unit (`with theater.x.request() as request:
yield request` in `go_to_movies`): it starts service immediately when a unit
is free, else joins the pool's FIFO wait-list. -/
def requestPool (s : SimState) (pid : PoolId) (cid : Nat) (fuel : Nat) : SimState :=
  let rq := (s.getPool pid).request cid
  let s' := s.setPool pid rq.1
  if rq.2 then startService s' pid cid fuel else s'

/-- A customer releases a pool unit on leaving the `with` block: if the
wait-list is non-empty its head is granted the freed unit at the current time
(zero additional delay), via a same-time event. -/
def releasePool (s : SimState) (pid : PoolId) : SimState :=
  let rl := (s.getPool pid).release
  let s' := s.setPool pid rl.1
  match rl.2 with
  | none => s'
  | some h => schedule s' s'.now (.granted pid h)

/-- The tail of `go_to_movies`: append `env.now - arrival_time` for the
finished customer to the `wait_times` log. -/
def finishCustomer (s : SimState) (cid : Nat) : SimState :=
  { s with waitTimes := s.waitTimes ++ [s.now - ((s.arrivals.lookup cid).getD 0)] }

/-- Dispatch one popped event (the clock already advanced to its time):
`arrive` spawns the next moviegoer (recording its arrival time), schedules the
next arrival one `interval` later, and requests the cashier; a `granted`
customer starts its service; a completed cashier service releases the cashier
and requests the usher; a completed usher service releases the usher, flips
the `random.choice([True, False])` coin and either requests the food server or
finishes; a completed food service releases the server and finishes. -/
def handleEvent (s : SimState) (k : EvKind) (fuel : Nat) : SimState :=
  match k with
  | .arrive =>
    let cid := s.nextId
    let s1 := { s with nextId := cid + 1, arrivals := s.arrivals ++ [(cid, s.now)] }
    let s2 := schedule s1 (s1.now + s1.interval) .arrive
    requestPool s2 .cashier cid fuel
  | .granted pid cid => startService s pid cid fuel
  | .svcDone .cashier cid =>
    let s1 := releasePool s .cashier
    requestPool s1 .usher cid fuel
  | .svcDone .usher cid =>
    let s1 := releasePool s .usher
    let flip := randomChoiceBool s1.rng
    let s2 := setRng s1 flip.2
    if flip.1 then requestPool s2 .server cid fuel else finishCustomer s2 cid
  | .svcDone .server cid =>
    let s1 := releasePool s .server
    finishCustomer s1 cid

/-- One scheduler step (`simpy.Environment.step` under `run(until=horizon)`):
pop the earliest event; stop (`none`) when the queue is empty or the event is
at or after the horizon (the `until` stop event has urgent priority, so events
at exactly the horizon are not executed); otherwise advance the clock to the
event's time and dispatch it. -/
def stepSim (s : SimState) (horizon : ℚ) (fuel : Nat) : Option SimState :=
  if s.failed then none
  else
    match s.queue with
    | [] => none
    | e :: rest =>
      if horizon ≤ e.time then none
      else some (handleEvent { s with now := e.time, queue := rest } e.kind fuel)

/-- Run the scheduler for at most `n` steps (fuel for the unbounded event
loop): `env.run(until=horizon)`. -/
def runSim (horizon : ℚ) (fuel : Nat) : Nat → SimState → SimState
  | 0, s => s
  | n + 1, s =>
    match stepSim s horizon fuel with
    | none => s
    | some s' => runSim horizon fuel n s'

/-- Errors of the model: an invalid pool capacity at construction, or
exhaustion of rejection-sampling fuel. -/
inductive SimError where
  | configError
  | samplingFuelExhausted
deriving DecidableEq, Repr

/-- Modelled from the spec: `simpy.Resource.__init__` / `create_simulation`
rejects a zero or negative capacity with a configuration error (spec §7);
a valid capacity yields a fresh pool. -/
def Resource_init (capacity : Int) : Except SimError ResourcePool :=
  if capacity ≤ 0 then .error .configError else .ok (initPool capacity.toNat)

/-- Construction of one run, from `main` and the head of `run_movie_theater`:
seed the random source, build the `MovieTheater` (constructing the three
pools, each validating its capacity), reset the `wait_times` log to empty,
sample the arrival interval once, and schedule the first arrival one interval
after time 0. -/
def create_simulation (nCashiers nUshers nServers : Int) (seed : Nat) (fuel : Nat) :
    Except SimError SimState :=
  match Resource_init nCashiers, Resource_init nUshers, Resource_init nServers with
  | .error e, _, _ => .error e
  | .ok _, .error e, _ => .error e
  | .ok _, .ok _, .error e => .error e
  | .ok cashier, .ok usher, .ok server =>
    match arrival_interval_sample fuel (randomSeed seed) with
    | none => .error .samplingFuelExhausted
    | some (iv, r') =>
      .ok
      { now := 0
        nextSeq := 1
        queue := [⟨iv, 0, .arrive⟩]
        cashier := cashier
        usher := usher
        server := server
        nextId := 0
        arrivals := []
        interval := iv
        rng := r'
        waitTimes := []
        failed := false }

/-- The final state of a run: construct, then drive the event loop to the
horizon (with `fuel` bounding both the event count and each rejection loop). -/
def finalState (nCashiers nUshers nServers : Int) (seed : Nat) (horizon : ℚ)
    (fuel : Nat) : Except SimError SimState :=
  (create_simulation nCashiers nUshers nServers seed fuel).map (runSim horizon fuel fuel)

/-- The observable outcome of a run: its ordered wait-time sequence
(`run(handle, horizon)` in spec §6). -/
def run_simulation (nCashiers nUshers nServers : Int) (seed : Nat) (horizon : ℚ)
    (fuel : Nat) : Except SimError (List ℚ) :=
  (finalState nCashiers nUshers nServers seed horizon fuel).map SimState.waitTimes

/-- Events carrying the progress of some in-flight customer (everything except
the arrival process's own timeout). -/
def EvKind.isCustomerToken : EvKind → Bool
  | .arrive => false
  | .granted _ _ => true
  | .svcDone _ _ => true

/-- Number of in-flight customers: each spawned, unfinished customer is
represented exactly once, either by a pending customer event in the queue or
by an entry in some pool's wait-list. -/
def tokenCount (s : SimState) : Nat :=
  s.queue.countP (fun e => e.kind.isCustomerToken) + s.cashier.waitList.length +
    s.usher.waitList.length + s.server.waitList.length

theorem mem_insertEv (e x : Ev) (q : List Ev) : x ∈ insertEv e q ↔ x = e ∨ x ∈ q := by
  induction q with
  | nil => simp [insertEv]
  | cons y ys ih =>
    unfold insertEv
    split <;> simp only [List.mem_cons, ih] <;> tauto

theorem countP_insertEv (f : Ev → Bool) (e : Ev) (q : List Ev) :
    (insertEv e q).countP f = q.countP f + (if f e then 1 else 0) := by
  induction q with
  | nil => simp [insertEv, List.countP_cons]
  | cons y ys ih =>
    unfold insertEv
    split <;> simp only [List.countP_cons, ih] <;> omega

theorem schedule_queue (s : SimState) (t : ℚ) (k : EvKind) :
    (schedule s t k).queue = insertEv ⟨t, s.nextSeq, k⟩ s.queue := rfl

theorem schedule_now (s : SimState) (t : ℚ) (k : EvKind) : (schedule s t k).now = s.now := rfl

theorem schedule_cashier (s : SimState) (t : ℚ) (k : EvKind) :
    (schedule s t k).cashier = s.cashier := rfl

theorem schedule_usher (s : SimState) (t : ℚ) (k : EvKind) :
    (schedule s t k).usher = s.usher := rfl

theorem schedule_server (s : SimState) (t : ℚ) (k : EvKind) :
    (schedule s t k).server = s.server := rfl

theorem schedule_nextId (s : SimState) (t : ℚ) (k : EvKind) :
    (schedule s t k).nextId = s.nextId := rfl

theorem schedule_arrivals (s : SimState) (t : ℚ) (k : EvKind) :
    (schedule s t k).arrivals = s.arrivals := rfl

theorem schedule_interval (s : SimState) (t : ℚ) (k : EvKind) :
    (schedule s t k).interval = s.interval := rfl

theorem schedule_waitTimes (s : SimState) (t : ℚ) (k : EvKind) :
    (schedule s t k).waitTimes = s.waitTimes := rfl

theorem schedule_failed (s : SimState) (t : ℚ) (k : EvKind) :
    (schedule s t k).failed = s.failed := rfl

theorem tokenCount_schedule (s : SimState) (t : ℚ) (k : EvKind) :
    tokenCount (schedule s t k) = tokenCount s + (if k.isCustomerToken then 1 else 0) := by
  simp only [tokenCount, schedule_queue, schedule_cashier, schedule_usher, schedule_server,
    countP_insertEv]
  split <;> omega

theorem setRng_now (s : SimState) (r : RNG) : (setRng s r).now = s.now := rfl

theorem setRng_queue (s : SimState) (r : RNG) : (setRng s r).queue = s.queue := rfl

theorem setRng_cashier (s : SimState) (r : RNG) : (setRng s r).cashier = s.cashier := rfl

theorem setRng_usher (s : SimState) (r : RNG) : (setRng s r).usher = s.usher := rfl

theorem setRng_server (s : SimState) (r : RNG) : (setRng s r).server = s.server := rfl

theorem setRng_nextId (s : SimState) (r : RNG) : (setRng s r).nextId = s.nextId := rfl

theorem setRng_arrivals (s : SimState) (r : RNG) : (setRng s r).arrivals = s.arrivals := rfl

theorem setRng_interval (s : SimState) (r : RNG) : (setRng s r).interval = s.interval := rfl

theorem setRng_waitTimes (s : SimState) (r : RNG) : (setRng s r).waitTimes = s.waitTimes := rfl

theorem setRng_failed (s : SimState) (r : RNG) : (setRng s r).failed = s.failed := rfl

theorem tokenCount_setRng (s : SimState) (r : RNG) : tokenCount (setRng s r) = tokenCount s := rfl

theorem setPool_now (s : SimState) (pid : PoolId) (p : ResourcePool) :
    (s.setPool pid p).now = s.now := by cases pid <;> rfl

theorem setPool_queue (s : SimState) (pid : PoolId) (p : ResourcePool) :
    (s.setPool pid p).queue = s.queue := by cases pid <;> rfl

theorem setPool_nextSeq (s : SimState) (pid : PoolId) (p : ResourcePool) :
    (s.setPool pid p).nextSeq = s.nextSeq := by cases pid <;> rfl

theorem setPool_nextId (s : SimState) (pid : PoolId) (p : ResourcePool) :
    (s.setPool pid p).nextId = s.nextId := by cases pid <;> rfl

theorem setPool_arrivals (s : SimState) (pid : PoolId) (p : ResourcePool) :
    (s.setPool pid p).arrivals = s.arrivals := by cases pid <;> rfl

theorem setPool_interval (s : SimState) (pid : PoolId) (p : ResourcePool) :
    (s.setPool pid p).interval = s.interval := by cases pid <;> rfl

theorem setPool_rng (s : SimState) (pid : PoolId) (p : ResourcePool) :
    (s.setPool pid p).rng = s.rng := by cases pid <;> rfl

theorem setPool_waitTimes (s : SimState) (pid : PoolId) (p : ResourcePool) :
    (s.setPool pid p).waitTimes = s.waitTimes := by cases pid <;> rfl

theorem setPool_failed (s : SimState) (pid : PoolId) (p : ResourcePool) :
    (s.setPool pid p).failed = s.failed := by cases pid <;> rfl

theorem tokenCount_setPool (s : SimState) (pid : PoolId) (p : ResourcePool) :
    tokenCount (s.setPool pid p) + (s.getPool pid).waitList.length =
      tokenCount s + p.waitList.length := by
  cases pid <;> simp [tokenCount, SimState.setPool, SimState.getPool] <;> omega

/-- Shape of `startService`: either the ticket-check rejection loop exhausts
its fuel (only the `failed` flag is raised), or a service-completion event for
the right pool and customer is scheduled after updating only the random
state. -/
theorem startService_eq (s : SimState) (pid : PoolId) (cid : Nat) (fuel : Nat) :
    startService s pid cid fuel = { s with failed := true } ∨
      ∃ r d, startService s pid cid fuel =
        schedule (setRng s r) (s.now + d) (.svcDone pid cid) := by
  cases pid with
  | cashier => exact Or.inr ⟨_, _, rfl⟩
  | usher =>
    unfold startService
    cases h : check_ticket_duration fuel s.rng with
    | none => exact Or.inl rfl
    | some v => exact Or.inr ⟨v.2, v.1, rfl⟩
  | server => exact Or.inr ⟨_, _, rfl⟩

/-- Shape of `requestPool`: a free unit is granted immediately (the pool's
held count rises by one, its wait-list unchanged, and the service starts), or
the customer joins the tail of the pool's wait-list. -/
theorem requestPool_eq (s : SimState) (pid : PoolId) (cid : Nat) (fuel : Nat) :
    ((s.getPool pid).held < (s.getPool pid).capacity ∧
        requestPool s pid cid fuel =
          startService (s.setPool pid { s.getPool pid with held := (s.getPool pid).held + 1 })
            pid cid fuel) ∨
      (¬ (s.getPool pid).held < (s.getPool pid).capacity ∧
        requestPool s pid cid fuel =
          s.setPool pid { s.getPool pid with waitList := (s.getPool pid).waitList ++ [cid] }) := by
  unfold requestPool ResourcePool.request
  split
  · left
    constructor
    · assumption
    · rfl
  · right
    constructor
    · assumption
    · rfl

/-- Shape of `releasePool`: with an empty wait-list the held count drops by
one; otherwise the wait-list head is removed and granted the unit via a
same-time event. -/
theorem releasePool_eq (s : SimState) (pid : PoolId) :
    ((s.getPool pid).waitList = [] ∧
        releasePool s pid =
          s.setPool pid { s.getPool pid with held := (s.getPool pid).held - 1 }) ∨
      (∃ h rest, (s.getPool pid).waitList = h :: rest ∧
        releasePool s pid =
          schedule (s.setPool pid { s.getPool pid with waitList := rest }) s.now
            (.granted pid h)) := by
  unfold releasePool ResourcePool.release
  cases hw : (s.getPool pid).waitList with
  | nil =>
    left
    refine ⟨rfl, ?_⟩
    simp [hw]
  | cons h rest =>
    right
    refine ⟨h, rest, rfl, ?_⟩
    simp [setPool_now]

theorem finishCustomer_waitTimes (s : SimState) (cid : Nat) :
    (finishCustomer s cid).waitTimes =
      s.waitTimes ++ [s.now - ((s.arrivals.lookup cid).getD 0)] := rfl

theorem finishCustomer_queue (s : SimState) (cid : Nat) :
    (finishCustomer s cid).queue = s.queue := rfl

theorem finishCustomer_nextId (s : SimState) (cid : Nat) :
    (finishCustomer s cid).nextId = s.nextId := rfl

theorem finishCustomer_arrivals (s : SimState) (cid : Nat) :
    (finishCustomer s cid).arrivals = s.arrivals := rfl

theorem finishCustomer_interval (s : SimState) (cid : Nat) :
    (finishCustomer s cid).interval = s.interval := rfl

theorem finishCustomer_failed (s : SimState) (cid : Nat) :
    (finishCustomer s cid).failed = s.failed := rfl

theorem tokenCount_finishCustomer (s : SimState) (cid : Nat) :
    tokenCount (finishCustomer s cid) = tokenCount s := rfl

/-- Transport of an invariant along the event loop. -/
theorem runSim_preserves (P : SimState → Prop) (horizon : ℚ) (fuel : Nat)
    (h : ∀ s s', stepSim s horizon fuel = some s' → P s → P s') :
    ∀ n s, P s → P (runSim horizon fuel n s) := by
  intro n
  induction n with
  | zero => intro s hs; exact hs
  | succ n ih =>
    intro s hs
    unfold runSim
    cases hst : stepSim s horizon fuel with
    | none => exact hs
    | some s' => exact ih s' (h s s' hst hs)

/-- Inversion of a successful scheduler step: the head event is popped, it
lies strictly before the horizon, the run had not failed, and the clock jumps
to the event's time before it is dispatched. -/
theorem stepSim_some (s s' : SimState) (horizon : ℚ) (fuel : Nat)
    (h : stepSim s horizon fuel = some s') :
    ∃ e rest, s.queue = e :: rest ∧ s.failed = false ∧ e.time < horizon ∧
      s' = handleEvent { s with now := e.time, queue := rest } e.kind fuel := by
  unfold stepSim at h
  split at h
  · exact absurd h (by simp)
  · rename_i hf
    split at h
    · exact absurd h (by simp)
    · rename_i e rest hq
      split at h
      · exact absurd h (by simp)
      · rename_i ht
        injection h with h
        exact ⟨e, rest, hq, by simpa using hf, not_le.mp ht, h.symm⟩

theorem Resource_init_ok (c : Int) (p : ResourcePool) (h : Resource_init c = .ok p) :
    p = initPool c.toNat := by
  unfold Resource_init at h
  split at h
  · exact absurd h (by simp)
  · injection h with h
    exact h.symm

/-- Inversion of a successful construction: the initial state of every run. -/
theorem create_simulation_ok (nCashiers nUshers nServers : Int) (seed fuel : Nat)
    (s : SimState) (h : create_simulation nCashiers nUshers nServers seed fuel = .ok s) :
    s.now = 0 ∧ s.queue = [⟨s.interval, 0, .arrive⟩] ∧
      s.cashier = initPool nCashiers.toNat ∧ s.usher = initPool nUshers.toNat ∧
      s.server = initPool nServers.toNat ∧ s.nextId = 0 ∧ s.arrivals = [] ∧
      s.waitTimes = [] ∧ s.failed = false := by
  unfold create_simulation at h
  split at h
  · exact absurd h (by simp)
  · exact absurd h (by simp)
  · exact absurd h (by simp)
  · rename_i cashier usher server hc hu hsv
    split at h
    · exact absurd h (by simp)
    · injection h with h
      subst h
      exact ⟨rfl, rfl, Resource_init_ok _ _ hc, Resource_init_ok _ _ hu,
        Resource_init_ok _ _ hsv, rfl, rfl, rfl, rfl⟩

/-- All three pools respect their capacity bound. -/
def poolsBounded (s : SimState) : Prop :=
  s.cashier.held ≤ s.cashier.capacity ∧ s.usher.held ≤ s.usher.capacity ∧
    s.server.held ≤ s.server.capacity

theorem poolsBounded_schedule (s : SimState) (t : ℚ) (k : EvKind) :
    poolsBounded (schedule s t k) ↔ poolsBounded s := by
  simp [poolsBounded, schedule_cashier, schedule_usher, schedule_server]

theorem poolsBounded_setRng (s : SimState) (r : RNG) :
    poolsBounded (setRng s r) ↔ poolsBounded s := Iff.rfl

theorem poolsBounded_setPool (s : SimState) (pid : PoolId) (p : ResourcePool)
    (hs : poolsBounded s) (hp : p.held ≤ p.capacity) : poolsBounded (s.setPool pid p) := by
  obtain ⟨h1, h2, h3⟩ := hs
  cases pid <;> exact ⟨by simpa [SimState.setPool], by simpa [SimState.setPool],
    by simpa [SimState.setPool]⟩

theorem poolsBounded_startService (s : SimState) (pid : PoolId) (cid fuel : Nat)
    (hs : poolsBounded s) : poolsBounded (startService s pid cid fuel) := by
  rcases startService_eq s pid cid fuel with h | ⟨r, d, h⟩
  · rw [h]
    exact hs
  · rw [h, poolsBounded_schedule, poolsBounded_setRng]
    exact hs

theorem poolsBounded_requestPool (s : SimState) (pid : PoolId) (cid fuel : Nat)
    (hs : poolsBounded s) : poolsBounded (requestPool s pid cid fuel) := by
  rcases requestPool_eq s pid cid fuel with ⟨hlt, h⟩ | ⟨hge, h⟩
  · rw [h]
    exact poolsBounded_startService _ _ _ _ (poolsBounded_setPool s pid _ hs (by simpa using hlt))
  · rw [h]
    have : (s.getPool pid).held ≤ (s.getPool pid).capacity := by
      obtain ⟨h1, h2, h3⟩ := hs
      cases pid <;> simpa [SimState.getPool]
    exact poolsBounded_setPool s pid _ hs (by simpa using this)

theorem poolsBounded_releasePool (s : SimState) (pid : PoolId)
    (hs : poolsBounded s) : poolsBounded (releasePool s pid) := by
  have hb : (s.getPool pid).held ≤ (s.getPool pid).capacity := by
    obtain ⟨h1, h2, h3⟩ := hs
    cases pid <;> simpa [SimState.getPool]
  rcases releasePool_eq s pid with ⟨hw, h⟩ | ⟨hd, rest, hw, h⟩
  · rw [h]
    exact poolsBounded_setPool s pid _ hs (by simp; omega)
  · rw [h, poolsBounded_schedule]
    exact poolsBounded_setPool s pid _ hs (by simpa using hb)

theorem poolsBounded_finishCustomer (s : SimState) (cid : Nat)
    (hs : poolsBounded s) : poolsBounded (finishCustomer s cid) := hs

theorem poolsBounded_handleEvent (s : SimState) (k : EvKind) (fuel : Nat)
    (hs : poolsBounded s) : poolsBounded (handleEvent s k fuel) := by
  cases k with
  | arrive =>
    simp only [handleEvent]
    apply poolsBounded_requestPool
    rw [poolsBounded_schedule]
    exact hs
  | granted pid cid =>
    simp only [handleEvent]
    exact poolsBounded_startService _ _ _ _ hs
  | svcDone pid cid =>
    cases pid with
    | cashier =>
      simp only [handleEvent]
      exact poolsBounded_requestPool _ _ _ _ (poolsBounded_releasePool _ _ hs)
    | usher =>
      simp only [handleEvent]
      split
      · apply poolsBounded_requestPool
        rw [poolsBounded_setRng]
        exact poolsBounded_releasePool _ _ hs
      · apply poolsBounded_finishCustomer
        rw [poolsBounded_setRng]
        exact poolsBounded_releasePool _ _ hs
    | server =>
      simp only [handleEvent]
      exact poolsBounded_finishCustomer _ _ (poolsBounded_releasePool _ _ hs)

theorem poolsBounded_runSim (horizon : ℚ) (fuel n : Nat) (s : SimState)
    (hs : poolsBounded s) : poolsBounded (runSim horizon fuel n s) := by
  refine runSim_preserves poolsBounded horizon fuel ?_ n s hs
  intro s s' hstep hP
  obtain ⟨e, rest, hq, hf, ht, hs'⟩ := stepSim_some s s' horizon fuel hstep
  subst hs'
  apply poolsBounded_handleEvent
  exact hP

theorem startService_account (s : SimState) (pid : PoolId) (cid fuel : Nat) :
    (startService s pid cid fuel).failed = true ∨
      ((startService s pid cid fuel).waitTimes = s.waitTimes ∧
        tokenCount (startService s pid cid fuel) = tokenCount s + 1 ∧
        (startService s pid cid fuel).nextId = s.nextId ∧
        (startService s pid cid fuel).failed = s.failed) := by
  rcases startService_eq s pid cid fuel with h | ⟨r, d, h⟩
  · left
    rw [h]
  · right
    rw [h]
    refine ⟨?_, ?_, ?_, ?_⟩
    · rw [schedule_waitTimes, setRng_waitTimes]
    · rw [tokenCount_schedule, tokenCount_setRng]
      simp [EvKind.isCustomerToken]
    · rw [schedule_nextId, setRng_nextId]
    · rw [schedule_failed, setRng_failed]

theorem requestPool_account (s : SimState) (pid : PoolId) (cid fuel : Nat) :
    (requestPool s pid cid fuel).failed = true ∨
      ((requestPool s pid cid fuel).waitTimes = s.waitTimes ∧
        tokenCount (requestPool s pid cid fuel) = tokenCount s + 1 ∧
        (requestPool s pid cid fuel).nextId = s.nextId ∧
        (requestPool s pid cid fuel).failed = s.failed) := by
  rcases requestPool_eq s pid cid fuel with ⟨hlt, h⟩ | ⟨hge, h⟩
  · rw [h]
    have e0 : tokenCount (s.setPool pid { s.getPool pid with held := (s.getPool pid).held + 1 })
        = tokenCount s := by
      have h2 := tokenCount_setPool s pid { s.getPool pid with held := (s.getPool pid).held + 1 }
      simp at h2 ⊢
      omega
    rcases startService_account (s.setPool pid { s.getPool pid with held := (s.getPool pid).held + 1 })
        pid cid fuel with h2 | ⟨hw, ht, hn, hf⟩
    · left
      exact h2
    · right
      refine ⟨?_, ?_, ?_, ?_⟩
      · rw [hw, setPool_waitTimes]
      · rw [ht, e0]
      · rw [hn, setPool_nextId]
      · rw [hf, setPool_failed]
  · right
    rw [h]
    have h2 := tokenCount_setPool s pid
      { s.getPool pid with waitList := (s.getPool pid).waitList ++ [cid] }
    refine ⟨setPool_waitTimes .., ?_, setPool_nextId .., setPool_failed ..⟩
    simp at h2 ⊢
    omega

theorem releasePool_account (s : SimState) (pid : PoolId) :
    (releasePool s pid).waitTimes = s.waitTimes ∧
      tokenCount (releasePool s pid) = tokenCount s ∧
      (releasePool s pid).nextId = s.nextId ∧
      (releasePool s pid).failed = s.failed := by
  rcases releasePool_eq s pid with ⟨hw, h⟩ | ⟨hd, rest, hw, h⟩
  · rw [h]
    have h2 := tokenCount_setPool s pid { s.getPool pid with held := (s.getPool pid).held - 1 }
    refine ⟨setPool_waitTimes .., ?_, setPool_nextId .., setPool_failed ..⟩
    simp at h2 ⊢
    omega
  · rw [h]
    have h2 := tokenCount_setPool s pid { s.getPool pid with waitList := rest }
    rw [hw] at h2
    simp only [List.length_cons] at h2
    refine ⟨?_, ?_, ?_, ?_⟩
    · rw [schedule_waitTimes, setPool_waitTimes]
    · rw [tokenCount_schedule]
      simp only [EvKind.isCustomerToken, if_true]
      omega
    · rw [schedule_nextId, setPool_nextId]
    · rw [schedule_failed, setPool_failed]

theorem handleEvent_account (s : SimState) (k : EvKind) (fuel : Nat) :
    (handleEvent s k fuel).failed = true ∨
      ((handleEvent s k fuel).waitTimes.length + tokenCount (handleEvent s k fuel)
          = s.waitTimes.length + tokenCount s + 1 ∧
        (handleEvent s k fuel).nextId = s.nextId + (if k = .arrive then 1 else 0) ∧
        (handleEvent s k fuel).failed = s.failed) := by
  cases k with
  | arrive =>
    simp only [handleEvent]
    rcases requestPool_account
        (schedule { s with nextId := s.nextId + 1, arrivals := s.arrivals ++ [(s.nextId, s.now)] }
          (s.now + s.interval) .arrive) .cashier s.nextId fuel with h | ⟨hw, ht, hn, hf⟩
    · left
      exact h
    · right
      rw [hw, ht, hn, hf, schedule_waitTimes, schedule_nextId, schedule_failed,
        tokenCount_schedule]
      simp [EvKind.isCustomerToken, tokenCount]
      omega
  | granted pid cid =>
    simp only [handleEvent]
    rcases startService_account s pid cid fuel with h | ⟨hw, ht, hn, hf⟩
    · left
      exact h
    · right
      rw [hw, ht, hn, hf]
      simp
      omega
  | svcDone pid cid =>
    cases pid with
    | cashier =>
      simp only [handleEvent]
      obtain ⟨rw1, rt1, rn1, rf1⟩ := releasePool_account s .cashier
      rcases requestPool_account (releasePool s .cashier) .usher cid fuel with h | ⟨hw, ht, hn, hf⟩
      · left
        exact h
      · right
        rw [hw, ht, hn, hf, rw1, rt1, rn1, rf1]
        simp
        omega
    | usher =>
      simp only [handleEvent]
      obtain ⟨rw1, rt1, rn1, rf1⟩ := releasePool_account s .usher
      split
      · rcases requestPool_account (setRng (releasePool s .usher)
            (randomChoiceBool (releasePool s .usher).rng).2) .server cid fuel with h | ⟨hw, ht, hn, hf⟩
        · left
          exact h
        · right
          rw [hw, ht, hn, hf, setRng_waitTimes, tokenCount_setRng, setRng_nextId, setRng_failed,
            rw1, rt1, rn1, rf1]
          simp
          omega
      · right
        rw [finishCustomer_waitTimes, tokenCount_finishCustomer, finishCustomer_nextId,
          finishCustomer_failed, setRng_waitTimes, tokenCount_setRng, setRng_nextId,
          setRng_failed, rw1, rt1, rn1, rf1]
        simp [Nat.add_right_comm]
    | server =>
      simp only [handleEvent]
      obtain ⟨rw1, rt1, rn1, rf1⟩ := releasePool_account s .server
      right
      rw [finishCustomer_waitTimes, tokenCount_finishCustomer, finishCustomer_nextId,
        finishCustomer_failed, rw1, rt1, rn1, rf1]
      simp [Nat.add_right_comm]

/-- Accounting invariant: one wait-time entry per finished customer, one token
per in-flight customer, and every spawned customer is one or the other. -/
def accounted (s : SimState) : Prop :=
  s.waitTimes.length + tokenCount s = s.nextId

theorem tokenCount_pop (s : SimState) (e : Ev) (rest : List Ev) (t : ℚ)
    (hq : s.queue = e :: rest) :
    tokenCount s =
      tokenCount { s with now := t, queue := rest } + (if e.kind.isCustomerToken then 1 else 0) := by
  simp only [tokenCount, hq, List.countP_cons]
  split <;> omega

theorem token_or_arrive (k : EvKind) :
    (if k.isCustomerToken then (1 : Nat) else 0) + (if k = .arrive then 1 else 0) = 1 := by
  cases k <;> simp [EvKind.isCustomerToken]

theorem accounted_runSim (horizon : ℚ) (fuel n : Nat) (s : SimState)
    (hs : s.failed = true ∨ accounted s) :
    (runSim horizon fuel n s).failed = true ∨ accounted (runSim horizon fuel n s) := by
  refine runSim_preserves (fun s => s.failed = true ∨ accounted s) horizon fuel ?_ n s hs
  intro s s' hstep hP
  obtain ⟨e, rest, hq, hf, ht, hs'⟩ := stepSim_some s s' horizon fuel hstep
  rcases hP with hP | hP
  · rw [hP] at hf
    exact absurd hf (by simp)
  · subst hs'
    rcases handleEvent_account { s with now := e.time, queue := rest } e.kind fuel with
      h | ⟨h1, h2, h3⟩
    · left
      exact h
    · right
      unfold accounted
      have hpop := tokenCount_pop s e rest e.time hq
      have hexc := token_or_arrive e.kind
      unfold accounted at hP
      simp only at h1 h2
      omega

/-- Recogniser for the arrival process's timeout event. -/
def EvKind.isArrive : EvKind → Bool
  | .arrive => true
  | .granted _ _ => false
  | .svcDone _ _ => false

theorem isArrive_iff (k : EvKind) : k.isArrive = true ↔ k = .arrive := by
  cases k <;> simp [EvKind.isArrive]

/-- Number of pending arrival timeouts in an event queue. -/
def arriveCount (q : List Ev) : Nat :=
  q.countP (fun e => e.kind.isArrive)

theorem arriveCount_cons (e : Ev) (rest : List Ev) :
    arriveCount (e :: rest) = arriveCount rest + (if e.kind = .arrive then 1 else 0) := by
  simp only [arriveCount, List.countP_cons]
  by_cases h : e.kind = .arrive
  · simp [h, EvKind.isArrive]
  · have : e.kind.isArrive = false := by
      cases hk : e.kind <;> simp [EvKind.isArrive] <;> rw [hk] at h <;> simp at h
    simp [this, h]

theorem arriveCount_insertEv (e : Ev) (q : List Ev) :
    arriveCount (insertEv e q) = arriveCount q + (if e.kind = .arrive then 1 else 0) := by
  simp only [arriveCount, countP_insertEv]
  by_cases h : e.kind = .arrive
  · simp [h, EvKind.isArrive]
  · have : e.kind.isArrive = false := by
      cases hk : e.kind <;> simp [EvKind.isArrive] <;> rw [hk] at h <;> simp at h
    simp [this, h]

theorem arriveCount_eq_zero (q : List Ev) :
    arriveCount q = 0 ↔ ∀ e ∈ q, e.kind ≠ .arrive := by
  simp only [arriveCount, List.countP_eq_zero]
  constructor
  · intro h e he
    have := h e he
    simpa [isArrive_iff] using this
  · intro h e he
    simpa [isArrive_iff] using h e he

/-- Periodicity invariant of the arrival process: every recorded arrival `k`
happened at `(k + 1) · interval`, there is at most one pending arrival
timeout, and it is scheduled at `(nextId + 1) · interval`. -/
def periodicInv (s : SimState) : Prop :=
  (∀ kt ∈ s.arrivals, kt.2 = ((kt.1 : ℚ) + 1) * s.interval) ∧
    (∀ e ∈ s.queue, e.kind = .arrive → e.time = ((s.nextId : ℚ) + 1) * s.interval) ∧
    arriveCount s.queue ≤ 1

theorem periodicInv_congr (s s' : SimState) (hq : s'.queue = s.queue)
    (ha : s'.arrivals = s.arrivals) (hn : s'.nextId = s.nextId) (hi : s'.interval = s.interval)
    (h : periodicInv s) : periodicInv s' := by
  obtain ⟨h1, h2, h3⟩ := h
  refine ⟨?_, ?_, ?_⟩
  · rw [ha, hi]
    exact h1
  · rw [hq, hn, hi]
    exact h2
  · rw [hq]
    exact h3

theorem periodicInv_schedule_nonarrive (s : SimState) (t : ℚ) (k : EvKind)
    (hk : k ≠ .arrive) (h : periodicInv s) : periodicInv (schedule s t k) := by
  obtain ⟨h1, h2, h3⟩ := h
  refine ⟨?_, ?_, ?_⟩
  · rw [schedule_arrivals, schedule_interval]
    exact h1
  · rw [schedule_queue, schedule_nextId, schedule_interval]
    intro e he hke
    rcases (mem_insertEv _ _ _).mp he with he | he
    · rw [he] at hke
      exact absurd hke hk
    · exact h2 e he hke
  · rw [schedule_queue, arriveCount_insertEv]
    simp only [hk, if_false]
    simpa using h3

theorem periodicInv_startService (s : SimState) (pid : PoolId) (cid fuel : Nat)
    (h : periodicInv s) : periodicInv (startService s pid cid fuel) := by
  rcases startService_eq s pid cid fuel with he | ⟨r, d, he⟩
  · rw [he]
    exact periodicInv_congr s _ rfl rfl rfl rfl h
  · rw [he]
    refine periodicInv_schedule_nonarrive _ _ _ (by simp) ?_
    exact periodicInv_congr s (setRng s r) (setRng_queue s r) (setRng_arrivals s r)
      (setRng_nextId s r) (setRng_interval s r) h

theorem periodicInv_requestPool (s : SimState) (pid : PoolId) (cid fuel : Nat)
    (h : periodicInv s) : periodicInv (requestPool s pid cid fuel) := by
  rcases requestPool_eq s pid cid fuel with ⟨hlt, he⟩ | ⟨hge, he⟩
  · rw [he]
    refine periodicInv_startService _ _ _ _ ?_
    exact periodicInv_congr s _ (setPool_queue ..) (setPool_arrivals ..) (setPool_nextId ..)
      (setPool_interval ..) h
  · rw [he]
    exact periodicInv_congr s _ (setPool_queue ..) (setPool_arrivals ..) (setPool_nextId ..)
      (setPool_interval ..) h

theorem periodicInv_releasePool (s : SimState) (pid : PoolId)
    (h : periodicInv s) : periodicInv (releasePool s pid) := by
  rcases releasePool_eq s pid with ⟨hw, he⟩ | ⟨hd, rest, hw, he⟩
  · rw [he]
    exact periodicInv_congr s _ (setPool_queue ..) (setPool_arrivals ..) (setPool_nextId ..)
      (setPool_interval ..) h
  · rw [he]
    refine periodicInv_schedule_nonarrive _ _ _ (by simp) ?_
    exact periodicInv_congr s _ (setPool_queue ..) (setPool_arrivals ..) (setPool_nextId ..)
      (setPool_interval ..) h

theorem periodicInv_finishCustomer (s : SimState) (cid : Nat)
    (h : periodicInv s) : periodicInv (finishCustomer s cid) :=
  periodicInv_congr s (finishCustomer s cid) (finishCustomer_queue s cid)
    (finishCustomer_arrivals s cid) (finishCustomer_nextId s cid)
    (finishCustomer_interval s cid) h

theorem periodicInv_handleEvent_nonarrive (s : SimState) (k : EvKind) (fuel : Nat)
    (hk : k ≠ .arrive) (h : periodicInv s) : periodicInv (handleEvent s k fuel) := by
  cases k with
  | arrive => exact absurd rfl hk
  | granted pid cid =>
    simp only [handleEvent]
    exact periodicInv_startService _ _ _ _ h
  | svcDone pid cid =>
    cases pid with
    | cashier =>
      simp only [handleEvent]
      exact periodicInv_requestPool _ _ _ _ (periodicInv_releasePool _ _ h)
    | usher =>
      simp only [handleEvent]
      split
      · apply periodicInv_requestPool
        refine periodicInv_congr (releasePool s .usher) _ (setRng_queue ..) (setRng_arrivals ..)
          (setRng_nextId ..) (setRng_interval ..) ?_
        exact periodicInv_releasePool _ _ h
      · apply periodicInv_finishCustomer
        refine periodicInv_congr (releasePool s .usher) _ (setRng_queue ..) (setRng_arrivals ..)
          (setRng_nextId ..) (setRng_interval ..) ?_
        exact periodicInv_releasePool _ _ h
    | server =>
      simp only [handleEvent]
      exact periodicInv_finishCustomer _ _ (periodicInv_releasePool _ _ h)

theorem periodicInv_step (s s' : SimState) (horizon : ℚ) (fuel : Nat)
    (hstep : stepSim s horizon fuel = some s') (h : periodicInv s) : periodicInv s' := by
  obtain ⟨e, rest, hq, hf, ht, hs'⟩ := stepSim_some s s' horizon fuel hstep
  subst hs'
  by_cases harr : e.kind = .arrive
  · obtain ⟨h1, h2, h3⟩ := h
    have htime : e.time = ((s.nextId : ℚ) + 1) * s.interval :=
      h2 e (by rw [hq]; exact List.mem_cons_self _ _) harr
    have hrest0 : arriveCount rest = 0 := by
      rw [hq, arriveCount_cons, harr] at h3
      simp at h3
      omega
    have hnone : ∀ x ∈ rest, x.kind ≠ .arrive := (arriveCount_eq_zero rest).mp hrest0
    rw [harr]
    simp only [handleEvent]
    apply periodicInv_requestPool
    refine ⟨?_, ?_, ?_⟩
    · rw [schedule_arrivals, schedule_interval]
      intro kt hkt
      simp only [List.mem_append, List.mem_singleton] at hkt
      rcases hkt with hkt | hkt
      · exact h1 kt hkt
      · rw [hkt]
        simpa using htime
    · rw [schedule_queue, schedule_nextId, schedule_interval]
      intro x hx hkx
      rcases (mem_insertEv _ _ _).mp hx with hx | hx
      · rw [hx]
        simp only
        rw [htime]
        push_cast
        ring
      · exact absurd hkx (hnone x hx)
    · rw [schedule_queue, arriveCount_insertEv]
      simp [hrest0]
  · have h0 : periodicInv { s with now := e.time, queue := rest } := by
      obtain ⟨h1, h2, h3⟩ := h
      refine ⟨?_, ?_, ?_⟩
      · simpa using h1
      · intro x hx hkx
        simp only at hx
        have := h2 x (by rw [hq]; exact List.mem_cons_of_mem _ hx) hkx
        simpa using this
      · show arriveCount rest ≤ 1
        rw [hq, arriveCount_cons] at h3
        omega
    exact periodicInv_handleEvent_nonarrive _ _ _ harr h0

theorem periodicInv_runSim (horizon : ℚ) (fuel n : Nat) (s : SimState)
    (hs : periodicInv s) : periodicInv (runSim horizon fuel n s) :=
  runSim_preserves periodicInv horizon fuel
    (fun a b hab => periodicInv_step a b horizon fuel hab) n s hs

theorem startService_interval (s : SimState) (pid : PoolId) (cid fuel : Nat) :
    (startService s pid cid fuel).interval = s.interval := by
  rcases startService_eq s pid cid fuel with h | ⟨r, d, h⟩
  · rw [h]
  · rw [h, schedule_interval, setRng_interval]

theorem requestPool_interval (s : SimState) (pid : PoolId) (cid fuel : Nat) :
    (requestPool s pid cid fuel).interval = s.interval := by
  rcases requestPool_eq s pid cid fuel with ⟨hlt, h⟩ | ⟨hge, h⟩
  · rw [h, startService_interval, setPool_interval]
  · rw [h, setPool_interval]

theorem releasePool_interval (s : SimState) (pid : PoolId) :
    (releasePool s pid).interval = s.interval := by
  rcases releasePool_eq s pid with ⟨hw, h⟩ | ⟨hd, rest, hw, h⟩
  · rw [h, setPool_interval]
  · rw [h, schedule_interval, setPool_interval]

theorem handleEvent_interval (s : SimState) (k : EvKind) (fuel : Nat) :
    (handleEvent s k fuel).interval = s.interval := by
  cases k with
  | arrive =>
    simp only [handleEvent]
    rw [requestPool_interval, schedule_interval]
  | granted pid cid =>
    simp only [handleEvent]
    rw [startService_interval]
  | svcDone pid cid =>
    cases pid with
    | cashier =>
      simp only [handleEvent]
      rw [requestPool_interval, releasePool_interval]
    | usher =>
      simp only [handleEvent]
      split
      · rw [requestPool_interval, setRng_interval, releasePool_interval]
      · rw [finishCustomer_interval, setRng_interval, releasePool_interval]
    | server =>
      simp only [handleEvent]
      rw [finishCustomer_interval, releasePool_interval]

/-- The once-sampled arrival interval is never reassigned during a run. -/
theorem runSim_interval (horizon : ℚ) (fuel : Nat) :
    ∀ (n : Nat) (s : SimState), (runSim horizon fuel n s).interval = s.interval := by
  intro n
  induction n with
  | zero => intro s; rfl
  | succ n ih =>
    intro s
    unfold runSim
    cases hst : stepSim s horizon fuel with
    | none => rfl
    | some s' =>
      obtain ⟨e, rest, hq, hf, ht, hs'⟩ := stepSim_some s s' horizon fuel hst
      rw [ih s', hs', handleEvent_interval]

/-- Python's `range(a, b)` as a list. -/
def pyRange (a b : Nat) : List Nat :=
  (List.range (b - a)).map (a + ·)

theorem mem_pyRange (a b x : Nat) : x ∈ pyRange a b ↔ a ≤ x ∧ x < b := by
  simp only [pyRange, List.mem_map, List.mem_range]
  constructor
  · rintro ⟨y, hy, rfl⟩
    omega
  · rintro ⟨h1, h2⟩
    exact ⟨x - a, by omega, by omega⟩

/-- Translated from `get_parameter_permutation`: the triply-nested generator
over `range(1, total_employees - 1)`, `range(1, servers_and_ushers)` and
`range(1, possible_ushers)`, yielding `(num_cashiers, num_servers,
num_ushers)` triples in generation order. -/
def get_parameter_permutation (total_employees : Nat) : List (Nat × Nat × Nat) :=
  (pyRange 1 (total_employees - 1)).flatMap (fun num_cashiers =>
    let servers_and_ushers := total_employees - num_cashiers
    (pyRange 1 servers_and_ushers).flatMap (fun num_servers =>
      let possible_ushers := servers_and_ushers - num_servers
      (pyRange 1 possible_ushers).map (fun num_ushers =>
        (num_cashiers, num_servers, num_ushers))))

/-- Modelled from the spec / the Python `statistics` library (external):
`statistics.mean` raises `StatisticsError` on an empty sequence (modelled as
`none`) and otherwise returns the arithmetic mean. -/
def statistics_mean (xs : List ℚ) : Option ℚ :=
  if xs.length = 0 then none else some (xs.sum / xs.length)

/-- The driver's post-run averaging step
(`avg_wait_time = statistics.mean(wait_times)` in `main`). -/
def main_average_step (s : SimState) : Option ℚ :=
  statistics_mean s.waitTimes

/-- Timing skeleton of `go_to_movies` for one customer: each stage blocks for
`bᵢ ≥ 0` until its pool unit is granted and then waits out its sampled service
duration `dᵢ`; the optional food stage runs exactly when the coin flip chose
it.  The customer finishes at the accumulated clock value. -/
def go_to_movies_completion (arrival_time b1 d1 b2 d2 : ℚ) (food : Bool) (b3 d3 : ℚ) : ℚ :=
  arrival_time + (b1 + d1) + (b2 + d2) + (if food then b3 + d3 else 0)

/-- The value appended to `wait_times`: `env.now - arrival_time` at completion. -/
def recorded_wait_time (arrival_time completion : ℚ) : ℚ :=
  completion - arrival_time

/-- Lift a predicate on final states to a run outcome (an errored construction
satisfies everything vacuously). -/
def resultProp (P : SimState → Prop) : Except SimError SimState → Prop
  | .error _ => True
  | .ok s => P s

/-- Gap form of the arrival periodicity: every recorded arrival `k` is at
`(k + 1) · interval`, hence consecutive arrivals are exactly one interval
apart. -/
def arrivalsPeriodicProp (s : SimState) : Prop :=
  (∀ kt ∈ s.arrivals, kt.2 = ((kt.1 : ℚ) + 1) * s.interval) ∧
    ∀ kt ∈ s.arrivals, ∀ kt' ∈ s.arrivals, kt'.1 = kt.1 + 1 → kt'.2 - kt.2 = s.interval

theorem rejectNormalvariate_nonneg (mu sigma : ℚ) :
    ∀ (fuel : Nat) (r : RNG) (v : ℚ) (r' : RNG),
      rejectNormalvariate mu sigma fuel r = some (v, r') → 0 ≤ v := by
  intro fuel
  induction fuel with
  | zero =>
    intro r v r' h
    exact absurd h (by simp [rejectNormalvariate])
  | succ n ih =>
    intro r v r' h
    rw [rejectNormalvariate] at h
    split at h
    · exact ih _ _ _ h
    · rename_i hge
      injection h with h
      have hv : (normalvariate mu sigma r).1 = v := by rw [h]
      rw [← hv]
      exact not_lt.mp hge

theorem runSim_stepSim_none (horizon : ℚ) (fuel n : Nat) (s : SimState)
    (h : stepSim s horizon fuel = none) : runSim horizon fuel n s = s := by
  cases n with
  | zero => rfl
  | succ n =>
    unfold runSim
    rw [h]

theorem ticketStage_start_ge (freeAt arrival d : ℚ) :
    freeAt ≤ (ticketStage freeAt arrival d).1 := by
  have h0 : (ticketStage freeAt arrival d).1 =
      if arrival < freeAt then freeAt else arrival := rfl
  rw [h0]
  by_cases h : arrival < freeAt
  · rw [if_pos h]
  · rw [if_neg h]
    exact not_lt.mp h

theorem mem_get_parameter_permutation (total c s u : Nat) :
    (c, s, u) ∈ get_parameter_permutation total ↔
      1 ≤ c ∧ 1 ≤ s ∧ 1 ≤ u ∧ c + s + u < total := by
  simp only [get_parameter_permutation, List.mem_flatMap, List.mem_map, mem_pyRange]
  constructor
  · rintro ⟨c', ⟨hc1, hc2⟩, s', ⟨hs1, hs2⟩, u', ⟨hu1, hu2⟩, heq⟩
    simp only [Prod.mk.injEq] at heq
    obtain ⟨rfl, rfl, rfl⟩ := heq
    omega
  · rintro ⟨hc, hs, hu, hsum⟩
    exact ⟨c, ⟨hc, by omega⟩, s, ⟨hs, by omega⟩, u, ⟨hu, by omega⟩, rfl⟩

/-- C1: every resource pool (cashier, usher, food server) constructed with
capacity `C` satisfies `0 ≤ held ≤ C` at every point: (i) for the pool in
isolation, after any acquire/release history from a fresh pool the held count
never exceeds the fixed capacity (`0 ≤ held` holds by the `Nat` type); and
(ii) in the full simulation, every reachable state of a run (each fuel bound
gives the state after that many events) keeps all three pools within
capacity. -/
theorem c1_resource_pool_bounded :
    (∀ (cap : Nat) (ops : List PoolOp),
        (applyPoolOps (initPool cap) ops).held ≤ cap ∧
          (applyPoolOps (initPool cap) ops).capacity = cap) ∧
      ∀ (nCashiers nUshers nServers : Int) (seed : Nat) (horizon : ℚ) (fuel : Nat),
        resultProp poolsBounded (finalState nCashiers nUshers nServers seed horizon fuel) := by
  constructor
  · intro cap ops
    obtain ⟨h1, h2⟩ := applyPoolOps_invariant (initPool cap) ops (by simp [initPool])
    have h3 : (initPool cap).capacity = cap := rfl
    rw [h3] at h2
    rw [h2] at h1
    exact ⟨h1, h2⟩
  · intro nC nU nS seed horizon fuel
    unfold finalState
    cases hcr : create_simulation nC nU nS seed fuel with
    | error e => exact trivial
    | ok s0 =>
      obtain ⟨-, -, hc, hu, hsv, -, -, -, -⟩ := create_simulation_ok nC nU nS seed fuel s0 hcr
      show poolsBounded (runSim horizon fuel fuel s0)
      apply poolsBounded_runSim
      exact ⟨by rw [hc]; simp [initPool], by rw [hu]; simp [initPool],
        by rw [hsv]; simp [initPool]⟩

/-- C2: strict FIFO grant order on every pool: a blocked acquirer joins the
tail of the wait-list, successive releases grant exactly the wait-list prefix
in order (so whoever blocked first is granted first), and in the two-customer
single-cashier scenario the second customer's ticket-purchase stage starts no
earlier than the first customer's ticket-purchase stage ends. -/
theorem c2_fifo_grant_order :
    (∀ (p : ResourcePool) (cid : Nat),
        (p.request cid).1.waitList =
          if p.held < p.capacity then p.waitList else p.waitList ++ [cid]) ∧
      (∀ (p : ResourcePool) (n : Nat), grantsAfterReleases p n = p.waitList.take n) ∧
      ∀ a1 a2 d1 d2 : ℚ,
        (ticketStage 0 a1 d1).2 ≤ (ticketStage (ticketStage 0 a1 d1).2 a2 d2).1 := by
  refine ⟨?_, grantsAfterReleases_eq_take, ?_⟩
  · intro p cid
    unfold ResourcePool.request
    by_cases h : p.held < p.capacity <;> simp [h]
  · intro a1 a2 d1 d2
    exact ticketStage_start_ge _ a2 d2

/-- C3: the run is a deterministic function of `(cashiers, ushers,
food_servers, seed, horizon)`: two runs constructed with identical values of
all five parameters produce the identical ordered wait-time sequence. -/
theorem c3_run_deterministic (nC1 nU1 nS1 : Int) (seed1 : Nat) (h1 : ℚ)
    (nC2 nU2 nS2 : Int) (seed2 : Nat) (h2 : ℚ) (fuel : Nat)
    (ec : nC1 = nC2) (eu : nU1 = nU2) (es : nS1 = nS2) (ed : seed1 = seed2) (eh : h1 = h2) :
    run_simulation nC1 nU1 nS1 seed1 h1 fuel = run_simulation nC2 nU2 nS2 seed2 h2 fuel := by
  subst ec
  subst eu
  subst es
  subst ed
  subst eh
  rfl

theorem c3_run_deterministic_witness :
    run_simulation 2 1 1 42 5 100 = run_simulation 2 1 1 42 5 100 :=
  c3_run_deterministic 2 1 1 42 5 2 1 1 42 5 100 rfl rfl rfl rfl rfl

/-- C4: constructing the simulation with any zero-or-negative pool capacity
fails fast with a configuration error: no simulation state (and hence no
simulated time) ever comes into existence.  In particular capacity (0, 1, 1)
fails at construction. -/
theorem c4_create_simulation_config_error (nC nU nS : Int) (seed fuel : Nat)
    (h : nC ≤ 0 ∨ nU ≤ 0 ∨ nS ≤ 0) :
    create_simulation nC nU nS seed fuel = .error .configError := by
  rcases h with h | h | h
  · unfold create_simulation Resource_init
    rw [if_pos h]
  · by_cases h1 : nC ≤ 0
    · unfold create_simulation Resource_init
      rw [if_pos h1]
    · unfold create_simulation Resource_init
      rw [if_neg h1, if_pos h]
  · by_cases h1 : nC ≤ 0
    · unfold create_simulation Resource_init
      rw [if_pos h1]
    · by_cases h2 : nU ≤ 0
      · unfold create_simulation Resource_init
        rw [if_neg h1, if_pos h2]
      · unfold create_simulation Resource_init
        rw [if_neg h1, if_neg h2, if_pos h]

theorem c4_create_simulation_config_error_witness :
    create_simulation 0 1 1 42 10 = .error .configError :=
  c4_create_simulation_config_error 0 1 1 42 10 (Or.inl (by norm_num))

/-- C5: the value appended for a completed customer is exactly the simulation
time at completion minus that customer's arrival time; along the customer's
timing skeleton this equals the sum of its blocking delays and service
durations, hence is at least the sum of the service durations it
experienced (two stages, or three when the food stage is taken). -/
theorem c5_recorded_wait_time :
    (∀ (s : SimState) (cid : Nat),
        (finishCustomer s cid).waitTimes =
          s.waitTimes ++ [s.now - ((s.arrivals.lookup cid).getD 0)]) ∧
      ∀ (arrival_time b1 d1 b2 d2 : ℚ) (food : Bool) (b3 d3 : ℚ),
        0 ≤ b1 → 0 ≤ b2 → 0 ≤ b3 →
        (recorded_wait_time arrival_time
              (go_to_movies_completion arrival_time b1 d1 b2 d2 food b3 d3) =
            (b1 + d1) + (b2 + d2) + (if food then b3 + d3 else 0) ∧
          d1 + d2 + (if food then d3 else 0) ≤
            recorded_wait_time arrival_time
              (go_to_movies_completion arrival_time b1 d1 b2 d2 food b3 d3)) := by
  refine ⟨fun s cid => finishCustomer_waitTimes s cid, ?_⟩
  intro a b1 d1 b2 d2 food b3 d3 hb1 hb2 hb3
  unfold recorded_wait_time go_to_movies_completion
  constructor
  · ring
  · cases food <;> simp <;> linarith

theorem c5_recorded_wait_time_witness :
    recorded_wait_time 0 (go_to_movies_completion 0 1 2 0 (1 / 20) true 1 3) =
        (1 + 2) + (0 + 1 / 20) + (if true then (1 : ℚ) + 3 else 0) ∧
      2 + 1 / 20 + (if true then (3 : ℚ) else 0) ≤
        recorded_wait_time 0 (go_to_movies_completion 0 1 2 0 (1 / 20) true 1 3) :=
  c5_recorded_wait_time.2 0 1 2 0 (1 / 20) true 1 3 (by norm_num) (by norm_num) (by norm_num)

/-- C6: every value returned by a rejection-sampled normal draw is
non-negative — the loop re-draws while the value is negative, so neither the
ticket-check sampler nor the arrival-interval sampler can ever return a value
below zero, across arbitrarily many draws (any fuel, any generator state). -/
theorem c6_samplers_nonnegative :
    (∀ (mu sigma : ℚ) (fuel : Nat) (r : RNG) (v : ℚ) (r' : RNG),
        rejectNormalvariate mu sigma fuel r = some (v, r') → 0 ≤ v) ∧
      (∀ (fuel : Nat) (r : RNG) (v : ℚ) (r' : RNG),
        check_ticket_duration fuel r = some (v, r') → 0 ≤ v) ∧
      ∀ (fuel : Nat) (r : RNG) (v : ℚ) (r' : RNG),
        arrival_interval_sample fuel r = some (v, r') → 0 ≤ v := by
  refine ⟨rejectNormalvariate_nonneg, ?_, ?_⟩
  · intro fuel r v r' h
    exact rejectNormalvariate_nonneg _ _ fuel r v r' h
  · intro fuel r v r' h
    exact rejectNormalvariate_nonneg _ _ fuel r v r' h

theorem c6_samplers_nonnegative_witness :
    check_ticket_duration 1 ⟨0⟩ = some (1 / 15, ⟨12345⟩) ∧ (0 : ℚ) ≤ 1 / 15 := by
  have h : check_ticket_duration 1 ⟨0⟩ = some (1 / 15, ⟨12345⟩) := by
    norm_num [check_ticket_duration, rejectNormalvariate, normalvariate, RNG.next]
  exact ⟨h, c6_samplers_nonnegative.2.1 1 ⟨0⟩ (1 / 15) ⟨12345⟩ h⟩

/-- C7: the arrival interval is sampled exactly once per run, at construction
and before the first arrival (`create_simulation` stores it and `runSim` never
reassigns it), and every recorded arrival `k` occurs at `(k + 1) · interval`,
so every inter-arrival gap equals the single sampled value. -/
theorem c7_arrival_interval_once :
    (∀ (nCashiers nUshers nServers : Int) (seed : Nat) (horizon : ℚ) (fuel : Nat),
        resultProp arrivalsPeriodicProp
          (finalState nCashiers nUshers nServers seed horizon fuel)) ∧
      ∀ (horizon : ℚ) (fuel n : Nat) (s : SimState),
        (runSim horizon fuel n s).interval = s.interval := by
  refine ⟨?_, fun horizon fuel n s => runSim_interval horizon fuel n s⟩
  intro nC nU nS seed horizon fuel
  unfold finalState
  cases hcr : create_simulation nC nU nS seed fuel with
  | error e => exact trivial
  | ok s0 =>
    obtain ⟨hnow, hq, hc, hu, hsv, hn, ha, hw, hf⟩ := create_simulation_ok nC nU nS seed fuel s0 hcr
    have hinv0 : periodicInv s0 := by
      refine ⟨?_, ?_, ?_⟩
      · rw [ha]
        intro kt hkt
        simp at hkt
      · rw [hq, hn]
        intro e he hk
        simp only [List.mem_singleton] at he
        rw [he]
        push_cast
        ring
      · rw [hq, arriveCount_cons]
        simp [arriveCount]
    have hfin := periodicInv_runSim horizon fuel fuel s0 hinv0
    show arrivalsPeriodicProp (runSim horizon fuel fuel s0)
    obtain ⟨g1, g2, g3⟩ := hfin
    refine ⟨g1, ?_⟩
    intro kt hkt kt' hkt' hidx
    have e1 := g1 kt hkt
    have e2 := g1 kt' hkt'
    rw [e1, e2, hidx]
    push_cast
    ring

/-- C8: wait-time log accounting: the log starts empty at construction (one
fresh, reset log per run), and in every final state that did not exhaust
sampling fuel, log length plus the number of still-in-flight customers (queued
in a pool wait-list or holding a pending event) equals the number of customers
spawned — so each completed customer contributes exactly one entry and each
customer abandoned at the horizon contributes none. -/
theorem c8_wait_time_log_accounting :
    (∀ (nCashiers nUshers nServers : Int) (seed fuel : Nat) (horizon : ℚ),
        resultProp (fun s => s.failed = true ∨ accounted s)
          (finalState nCashiers nUshers nServers seed horizon fuel)) ∧
      ∀ (nCashiers nUshers nServers : Int) (seed fuel : Nat),
        resultProp (fun s => s.waitTimes = [])
          (create_simulation nCashiers nUshers nServers seed fuel) := by
  constructor
  · intro nC nU nS seed fuel horizon
    unfold finalState
    cases hcr : create_simulation nC nU nS seed fuel with
    | error e => exact trivial
    | ok s0 =>
      obtain ⟨hnow, hq, hc, hu, hsv, hn, ha, hw, hf⟩ :=
        create_simulation_ok nC nU nS seed fuel s0 hcr
      have h0 : s0.failed = true ∨ accounted s0 := by
        right
        unfold accounted
        rw [hw, hn]
        simp only [List.length_nil]
        unfold tokenCount
        rw [hq, hc, hu, hsv]
        simp [initPool, List.countP_cons, EvKind.isCustomerToken]
      have := accounted_runSim horizon fuel fuel s0 h0
      exact this
  · intro nC nU nS seed fuel
    cases hcr : create_simulation nC nU nS seed fuel with
    | error e => exact trivial
    | ok s0 =>
      obtain ⟨-, -, -, -, -, -, -, hw, -⟩ := create_simulation_ok nC nU nS seed fuel s0 hcr
      exact hw

/-- C9: the staffing-triple enumerator yields exactly the triples
`(cashiers, servers, ushers)` with every component at least 1 and component
sum strictly below `total_employees` (so no yielded triple uses the full
headcount), and yields nothing at all when `total_employees ≤ 3`. -/
theorem c9_parameter_permutation (total : Nat) :
    (∀ c s u : Nat,
        ((c, s, u) ∈ get_parameter_permutation total ↔
          1 ≤ c ∧ 1 ≤ s ∧ 1 ≤ u ∧ c + s + u < total)) ∧
      (total ≤ 3 → get_parameter_permutation total = []) := by
  refine ⟨fun c s u => mem_get_parameter_permutation total c s u, ?_⟩
  intro hle
  apply List.eq_nil_iff_forall_not_mem.mpr
  intro x hx
  obtain ⟨c, s, u⟩ := x
  rw [mem_get_parameter_permutation] at hx
  omega

theorem c9_parameter_permutation_witness :
    get_parameter_permutation 3 = [] ∧
      ((1, 1, 1) ∈ get_parameter_permutation 5 ↔ 1 ≤ 1 ∧ 1 ≤ 1 ∧ 1 ≤ 1 ∧ 1 + 1 + 1 < 5) :=
  ⟨(c9_parameter_permutation 3).2 (by norm_num), (c9_parameter_permutation 5).1 1 1 1⟩

/-- C10: the driver's post-run averaging step is undefined exactly on an empty
wait-time log (`statistics.mean` errors on an empty sequence), so a run that
completes no customer makes the averaging step raise rather than return; such
runs exist (a horizon below the first arrival yields an empty log). -/
theorem c10_mean_empty_error :
    (∀ xs : List ℚ, statistics_mean xs = none ↔ xs = []) ∧
      (∀ (nCashiers nUshers nServers : Int) (seed fuel : Nat) (horizon : ℚ),
        resultProp (fun s => (main_average_step s = none ↔ s.waitTimes = []))
          (finalState nCashiers nUshers nServers seed horizon fuel)) ∧
      run_simulation 1 1 1 42 (1 / 10) 20 = .ok [] := by
  have hmean : ∀ xs : List ℚ, statistics_mean xs = none ↔ xs = [] := by
    intro xs
    unfold statistics_mean
    split
    · rename_i hlen
      simpa using List.length_eq_zero.mp hlen
    · rename_i hlen
      constructor
      · intro hcontra
        simp at hcontra
      · intro hnil
        subst hnil
        simp at hlen
  refine ⟨hmean, ?_, ?_⟩
  · intro nC nU nS seed fuel horizon
    unfold finalState
    cases hcr : create_simulation nC nU nS seed fuel with
    | error e => exact trivial
    | ok s0 => exact hmean _
  · unfold run_simulation finalState
    have hcr : create_simulation 1 1 1 42 20 = .ok
        { now := 0, nextSeq := 1, queue := [⟨9 / 20, 0, .arrive⟩], cashier := initPool 1,
          usher := initPool 1, server := initPool 1, nextId := 0, arrivals := [],
          interval := 9 / 20, rng := ⟨1116302264⟩, waitTimes := [], failed := false } := by
      norm_num [create_simulation, Resource_init, arrival_interval_sample, rejectNormalvariate,
        normalvariate, RNG.next, randomSeed, initPool]
    rw [hcr]
    have hstep : stepSim
        { now := 0, nextSeq := 1, queue := [⟨9 / 20, 0, .arrive⟩], cashier := initPool 1,
          usher := initPool 1, server := initPool 1, nextId := 0, arrivals := [],
          interval := 9 / 20, rng := ⟨1116302264⟩, waitTimes := [], failed := false }
        (1 / 10) 20 = none := by
      norm_num [stepSim]
    simp only [Except.map]
    rw [runSim_stepSim_none _ _ _ _ hstep]

end MovieTheaterSim
